import Mathlib

/-!
Verification of the third-party license checker
(`license_check/third_party_license_test.py`).

The script is shallowly embedded: every Python function is translated to a
Lean function over `String` (backed by `List Char` workers that model the
Python string builtins used by the script), the HTTP layer (`requests.get`)
is an oracle `Net : String → Option String` mapping a raw URL to its body
when the response status is 200 and to `none` otherwise, and the XML parser
(`xml.etree.ElementTree.fromstring`, a Python standard-library call) is an
oracle `String → Option XmlElem`.  Process exits and file writes are made
explicit in the results of the embedded functions.
-/

namespace LicenseCheck

/-! ## Models of the Python string builtins used by the script

The workers operate on `List Char`.  Fuel-driven recursion is used where the
scan consumes more than one character per step (`str.split`, `str.replace`);
fuel `s.length` always suffices because every step consumes at least one
character of the scanned list.  Keeping the recursion structural lets the
kernel evaluate every definition on concrete inputs.
-/

/-- Worker for Python `s.split(sep)` (non-empty `sep`): leftmost-first,
non-overlapping occurrences of `sep` cut the list.  `fuel ≥ s.length` gives
the real semantics. -/
def splitLF (sep : List Char) : Nat → List Char → List (List Char)
  | _, [] => [[]]
  | 0, s => [s]
  | fuel + 1, c :: rest =>
    if sep.isPrefixOf (c :: rest) && !sep.isEmpty then
      [] :: splitLF sep fuel (rest.drop (sep.length - 1))
    else
      match splitLF sep fuel rest with
      | [] => [[c]]
      | r :: rs => (c :: r) :: rs

/-- Python `s.split(sep)` for a non-empty separator, on character lists. -/
def splitL (sep s : List Char) : List (List Char) := splitLF sep s.length s

/-- Worker for Python `s.replace(old, new)` (non-empty `old`):
leftmost-first, non-overlapping occurrences replaced.  `fuel ≥ s.length`
gives the real semantics. -/
def replaceLF (pat rep : List Char) : Nat → List Char → List Char
  | _, [] => []
  | 0, s => s
  | fuel + 1, c :: rest =>
    if pat.isPrefixOf (c :: rest) && !pat.isEmpty then
      rep ++ replaceLF pat rep fuel (rest.drop (pat.length - 1))
    else
      c :: replaceLF pat rep fuel rest

/-- Python `s.replace(old, new)` for a non-empty pattern, on char lists. -/
def replaceL (pat rep s : List Char) : List Char := replaceLF pat rep s.length s

/-- Python substring containment `pat in s`. -/
def hasOccur (pat : List Char) : List Char → Bool
  | [] => pat.isEmpty
  | c :: rest => pat.isPrefixOf (c :: rest) || hasOccur pat rest

/-- Python slice `s[:-n]`: drop the last `n` characters. -/
def dropRightL (n : Nat) (l : List Char) : List Char := l.take (l.length - n)

/-- Worker for Python `s.split()` (no argument): split on whitespace runs,
discarding empty pieces.  `cur` holds the current word, reversed. -/
def wordsAux (cur : List Char) : List Char → List (List Char)
  | [] => if cur.isEmpty then [] else [cur.reverse]
  | c :: rest =>
    if c.isWhitespace then
      if cur.isEmpty then wordsAux [] rest else cur.reverse :: wordsAux [] rest
    else wordsAux (c :: cur) rest

/-- Python `s.strip(c)` for a single strip character: remove every leading
and trailing occurrence of `c`. -/
def stripCharL (c : Char) (l : List Char) : List Char :=
  ((l.dropWhile (· == c)).reverse.dropWhile (· == c)).reverse

/-- String view of `pat in s`. -/
def pyContains (s pat : String) : Bool := hasOccur pat.data s.data

/-- String view of `s.split(sep)` (non-empty `sep`). -/
def pySplit (s sep : String) : List String := (splitL sep.data s.data).map String.mk

/-- String view of `s.replace(old, new)` (non-empty `old`). -/
def pyReplace (s old new : String) : String := String.mk (replaceL old.data new.data s.data)

/-- String view of `s[:-n]`. -/
def pyDropRight (s : String) (n : Nat) : String := String.mk (dropRightL n s.data)

/-- String view of `s.split()`. -/
def pyWords (s : String) : List String := (wordsAux [] s.data).map String.mk

/-- String view of `s.strip(c)`. -/
def pyStripChar (s : String) (c : Char) : String := String.mk (stripCharL c s.data)

/-- Python `s.endswith(suffix)`. -/
def pyEndsWith (s suf : String) : Bool := suf.data.isSuffixOf s.data

/-- Python `s.splitlines()`, for content whose only line terminator is
the newline character (the only case arising here): split on newlines, with
no final empty line produced by a trailing newline. -/
def pySplitlines (s : String) : List String :=
  if s.data.isEmpty then []
  else
    let parts := pySplit s "\n"
    if parts.getLast? == some "" then parts.dropLast else parts

/-- Python percent-s formatting of a value that is a string or `None`. -/
def pyStr : Option String → String
  | none => "None"
  | some s => s

/-- The single-quote character, used by Python `repr` of a string. -/
def squote : Char := Char.ofNat 39

/-- Python `repr` of a string without special characters (the form taken by
the package names this script renders): surround with single quotes. -/
def pyReprStr (s : String) : String := String.singleton squote ++ s ++ String.singleton squote

/-- Join a list of strings with a separator (worker for Python `str` of a
list, which joins the element reprs with a comma-space). -/
def joinSep (sep : String) : List String → String
  | [] => ""
  | [x] => x
  | x :: y :: xs => x ++ sep ++ joinSep sep (y :: xs)

/-- Python `str` of a list of strings: brackets around the single-quoted
elements joined by comma-space. -/
def pyStrList (l : List String) : String :=
  "[" ++ joinSep ", " (l.map pyReprStr) ++ "]"

/-! ## Constants of the script -/

/-- The constant named GITHUB_PREFIX in the source. -/
def GITHUB_URL_BASE : String := "https://github.com/"

/-- The constant named RAW_FILE_PREFIX in the source. -/
def RAW_FILE_URL_BASE : String := "https://raw.githubusercontent.com/"

def POM_FILE_SUFFIX : String := ".xml"

def GRADLE_FILE_SUFFIX : String := ".gradle"

/-- The `branch_roots` list appearing in `get_file_from_github` and
`get_github_root_url`. -/
def branch_roots : List String := ["master/", "main/"]

/-- The `license_filenames` list of `get_license_from_pom`. -/
def license_filenames : List String := ["LICENSE", "COPYING"]

/-- One separator line of the spacer: 79 equals signs (codepoint 61). -/
def eqLine : String := String.mk (List.replicate 79 (Char.ofNat 61))

/-- The `SPACER` block separator (three lines of 79 equals signs framed by
blank lines). -/
def SPACER : String :=
  "\n\n" ++ eqLine ++ "\n" ++ eqLine ++ "\n" ++ eqLine ++ "\n\n"

/-! ## RemoteTextFetcher: `get_file_from_github` -/

/-- The network oracle: maps a raw URL to `some body` when `requests.get`
returns status 200 and to `none` for any other status. -/
abbrev Net := String → Option String

/-- The marker loop of `get_file_from_github` (lines 33–40): find the first
branch root contained in the URL, split on it, and rebuild the raw URL with
the five characters before the first occurrence (expected to be `blob/`)
deleted.  Yields the empty string when no branch root is found. -/
def raw_file_url_of (raw_file_url_with_blob : String) : String :=
  match branch_roots.find? (fun br => pyContains raw_file_url_with_blob br) with
  | none => ""
  | some br =>
    let split_url := pySplit raw_file_url_with_blob br
    -- `split_url` has at least two entries because `br` occurs in the URL,
    -- so the defaults of `headD`/`getD` are never used.
    pyDropRight (split_url.headD "") 5 ++ br ++ split_url.getD 1 ""

/-- The function `get_file_from_github` (lines 30–50). -/
def get_file_from_github (net : Net) (github_url : String) : Option String :=
  let raw_file_url_with_blob := pyReplace github_url GITHUB_URL_BASE RAW_FILE_URL_BASE
  let raw_file_url := raw_file_url_of raw_file_url_with_blob
  if raw_file_url = "" then none
  else net raw_file_url

/-! ## The XML tree model

`xml.etree.ElementTree.fromstring` is a Python standard-library call; the
tree it produces is modelled by `XmlElem` and the call itself by an oracle
`XmlOracle`, with `none` standing for a raised `ParseError` (an uncaught
exception in the script). -/

/-- An element of the parsed XML tree: tag (with expanded namespace), text,
and the list of direct children. -/
inductive XmlElem where
  | node (tag : String) (text : Option String) (children : List XmlElem)

def XmlElem.tag : XmlElem → String
  | .node t _ _ => t

def XmlElem.text : XmlElem → Option String
  | .node _ x _ => x

def XmlElem.children : XmlElem → List XmlElem
  | .node _ _ c => c

/-- The method `Element.find` with a single-tag path: the first direct child carrying
the tag. -/
def findChild (e : XmlElem) (t : String) : Option XmlElem :=
  e.children.find? (fun c => c.tag == t)

/-- The default Maven namespace bound to the mvn shorthand in the source. -/
def mvnNS : String := "http://maven.apache.org/POM/4.0.0"

/-- An expanded namespaced tag as ElementTree writes it: the namespace in
braces followed by the local name. -/
def mvnTag (localName : String) : String := "\x7b" ++ mvnNS ++ "\x7d" ++ localName

/-- The oracle standing for `ET.fromstring`. -/
abbrev XmlOracle := String → Option XmlElem

/-! ## Fatal outcomes

Every fatal path of the script — explicit `sys.exit(1)` calls and uncaught
Python exceptions — is a constructor.  Distinct constructors correspond to
distinct diagnostics. -/

inductive Fatal where
  /-- Lines 160–166: the two lists of maven_artifacts.bzl differ in length. -/
  | lengthMismatch
  /-- Lines 55–57: GitHub returned an error status while reading a pom URL. -/
  | remoteUnavailable (url : String)
  /-- Lines 59–64: uncaught exception while parsing pom content — a raised
  ParseError, or an AttributeError from a missing parent, groupId or
  artifactId element. -/
  | malformedDescriptor (url : String)
  /-- Line 79: uncaught AttributeError — `get_gradle_artifact_name` calls
  splitlines on the `None` returned by a failed fetch. -/
  | gradleFetchCrash (url : String)
  /-- Lines 181–183: a file list entry with neither a pom nor a gradle
  suffix. -/
  | unknownSuffix
  /-- Lines 187–190: uncaught IndexError — a declared artifact name with
  fewer than two colon-separated parts. -/
  | indexCrash
  /-- Uncaught KeyError on a dictionary lookup (never reached: every looked
  up key was inserted earlier in the run). -/
  | keyError (key : String)
  /-- Lines 192–196: derived and declared artifact name lists differ. -/
  | coordinateMismatch (github maven : List String)
  /-- Lines 97–103: no branch root found in a pom or gradle URL. -/
  | noBranchRoot (url : String)
  /-- Lines 121–123: no candidate license filename resolved. -/
  | licenseUnresolvable (url : String)
  /-- Lines 233–239: check mode found the notices file out of date. -/
  | noticesDrift
deriving DecidableEq

/-- Equality of run results is decidable, so concrete runs can be settled
by evaluation. -/
instance {ε α : Type} [DecidableEq ε] [DecidableEq α] : DecidableEq (Except ε α) := fun a b =>
  match a, b with
  | .error x, .error y => decidable_of_iff (x = y) (by simp)
  | .error _, .ok _ => .isFalse (fun hc => Except.noConfusion hc)
  | .ok _, .error _ => .isFalse (fun hc => Except.noConfusion hc)
  | .ok x, .ok y => decidable_of_iff (x = y) (by simp)

/-! ## DescriptorParser: `get_pom_artifact_name` and
`get_gradle_artifact_name` -/

/-- The function `get_pom_artifact_name` (lines 53–66).  The group is read from the
groupId child of the nested parent element and the artifact from the
top-level artifactId element; a missing element raises an AttributeError
(modelled by `Fatal.malformedDescriptor`). -/
def get_pom_artifact_name (net : Net) (parseXml : XmlOracle) (pom_xml_github_url : String) :
    Except Fatal String :=
  match get_file_from_github net pom_xml_github_url with
  | none => .error (.remoteUnavailable pom_xml_github_url)
  | some pom_xml_content =>
    match parseXml pom_xml_content with
    | none => .error (.malformedDescriptor pom_xml_github_url)
    | some root =>
      match findChild root (mvnTag "parent") with
      | none => .error (.malformedDescriptor pom_xml_github_url)
      | some parent =>
        match findChild parent (mvnTag "groupId") with
        | none => .error (.malformedDescriptor pom_xml_github_url)
        | some g =>
          match findChild root (mvnTag "artifactId") with
          | none => .error (.malformedDescriptor pom_xml_github_url)
          | some a => .ok (pyStr g.text ++ ":" ++ pyStr a.text)

/-- The function `get_grad_rval` (lines 69–70): last whitespace-delimited token of the
line, single quotes stripped.  The call sites pass lines containing a
non-whitespace token, so the line has a last word and the `getLastD`
default is never used (in Python an empty split would raise). -/
def get_grad_rval (line : String) : String :=
  pyStripChar ((pyWords line).getLastD "") squote

/-- One iteration of the line loop of `get_gradle_artifact_name`
(lines 79–83): the pair holds the current group and artifact values. -/
def gradleStep (acc : String × String) (line : String) : String × String :=
  let acc1 := if pyContains line "groupId" then (get_grad_rval line, acc.2) else acc
  if pyContains line "artifactId" then (acc1.1, get_grad_rval line) else acc1

/-- The full line scan of `get_gradle_artifact_name`, starting from two
empty fields. -/
def gradle_scan (content : String) : String × String :=
  (pySplitlines content).foldl gradleStep ("", "")

/-- The function `get_gradle_artifact_name` (lines 73–85).  A failed fetch is an
uncaught AttributeError (splitlines on None). -/
def get_gradle_artifact_name (net : Net) (url : String) : Except Fatal String :=
  match get_file_from_github net url with
  | none => .error (.gradleFetchCrash url)
  | some content =>
    let p := gradle_scan content
    .ok (p.1 ++ ":" ++ p.2)

/-! ## LicenseLocator: `get_github_root_url` and `get_license_from_pom` -/

/-- The function `get_github_root_url` (lines 88–105).  The loop carries no break, so
when the URL contains several branch roots the later list entry wins. -/
def get_github_root_url (url : String) : Except Fatal String :=
  let github_root := branch_roots.foldl
    (fun acc br => if pyContains url br then (pySplit url br).headD "" ++ br else acc) ""
  if github_root = "" then .error (.noBranchRoot url) else .ok github_root

/-- The candidate-filename loop of `get_license_from_pom` (lines 115–119):
first resolving filename wins. -/
def probeLicense (net : Net) (github_branch_root : String) :
    List String → Option (String × String)
  | [] => none
  | filename :: rest =>
    let license_url := github_branch_root ++ filename
    match get_file_from_github net license_url with
    | some license_content => some (license_url, license_content)
    | none => probeLicense net github_branch_root rest

/-- The function `get_license_from_pom` (lines 108–125). -/
def get_license_from_pom (net : Net) (url : String) : Except Fatal (String × String) :=
  match get_github_root_url url with
  | .error e => .error e
  | .ok github_branch_root =>
    match probeLicense net github_branch_root license_filenames with
    | some r => .ok r
    | none => .error (.licenseUnresolvable url)

/-! ## Python dictionaries

Insertion-ordered association lists with unique keys, as Python dicts:
updating an existing key keeps its position, a new key is appended. -/

abbrev Dict := List (String × String)

def dictInsert (d : Dict) (k v : String) : Dict :=
  if d.any (fun p => p.1 == k) then d.map (fun p => if p.1 == k then (k, v) else p)
  else d ++ [(k, v)]

def dictGet (d : Dict) (k : String) : Option String :=
  (d.find? (fun p => p.1 == k)).map Prod.snd

/-- The update `license_url_to_package[license_url].append(package)` — the key is
known to be present. -/
def addPackage (d : List (String × List String)) (k pkg : String) :
    List (String × List String) :=
  d.map (fun p => if p.1 == k then (p.1, p.2 ++ [pkg]) else p)

/-- Lookup in the url-to-packages dictionary; the default is never used by
the script (lookups follow an insertion). -/
def pkgsGet (d : List (String × List String)) (k : String) : List String :=
  ((d.find? (fun p => p.1 == k)).map Prod.snd).getD []

/-- Lookup in the url-to-content dictionary; the default is never used by
the script (lookups follow an insertion). -/
def contentGet (d : Dict) (k : String) : String := (dictGet d k).getD ""

/-! ## CoordinateReconciler: lines 159–196 of `main` -/

/-- The descriptor loop of `main` (lines 171–183), carrying the derived
name list and the package-name-to-pom dictionary. -/
def buildLoop (net : Net) (parseXml : XmlOracle) :
    List String → List String → Dict → Except Fatal (List String × Dict)
  | [], acc, d => .ok (acc, d)
  | url :: rest, acc, d =>
    if pyEndsWith url POM_FILE_SUFFIX then
      match get_pom_artifact_name net parseXml url with
      | .error e => .error e
      | .ok tmp => buildLoop net parseXml rest (acc ++ [tmp]) (dictInsert d tmp url)
    else if pyEndsWith url GRADLE_FILE_SUFFIX then
      match get_gradle_artifact_name net url with
      | .error e => .error e
      | .ok tmp => buildLoop net parseXml rest (acc ++ [tmp]) (dictInsert d tmp url)
    else .error .unknownSuffix

/-- The declared-name truncation of lines 186–190: the first two
colon-separated parts.  `none` models the IndexError raised when the name
has no colon. -/
def maven_short_name (artifact_name : String) : Option String :=
  match pySplit artifact_name ":" with
  | p0 :: p1 :: _ => some (p0 ++ ":" ++ p1)
  | _ => none

/-- Lines 159–196 of `main`: length check, descriptor loop, declared-name
truncation, and the strict list equality check. -/
def reconcile (net : Net) (parseXml : XmlOracle)
    (maven_artifacts pom_gradle_filelist : List String) :
    Except Fatal (List String × Dict) :=
  if maven_artifacts.length ≠ pom_gradle_filelist.length then .error .lengthMismatch
  else
    match buildLoop net parseXml pom_gradle_filelist [] [] with
    | .error e => .error e
    | .ok (artifact_list_from_github, package_name_to_pom) =>
      match maven_artifacts.mapM maven_short_name with
      | none => .error .indexCrash
      | some artifact_list_from_maven =>
        if artifact_list_from_github ≠ artifact_list_from_maven then
          .error (.coordinateMismatch artifact_list_from_github artifact_list_from_maven)
        else .ok (artifact_list_from_github, package_name_to_pom)

/-! ## NoticesAggregator: lines 198–219 of `main` -/

/-- License resolution for one package (lines 202–204): dictionary lookup
then `get_license_from_pom`. -/
def licenseFor (net : Net) (package_name_to_pom : Dict) (package : String) :
    Except Fatal (String × String) :=
  match dictGet package_name_to_pom package with
  | none => .error (.keyError package)
  | some url => get_license_from_pom net url

/-- The grouping loop of lines 201–209, carrying the url-to-packages and
url-to-content dictionaries. -/
def licenseLoop (net : Net) (package_name_to_pom : Dict) :
    List String → List (String × List String) → Dict →
    Except Fatal (List (String × List String) × Dict)
  | [], u2p, u2c => .ok (u2p, u2c)
  | package :: rest, u2p, u2c =>
    match licenseFor net package_name_to_pom package with
    | .error e => .error e
    | .ok (license_url, license_content) =>
      if u2p.any (fun p => p.1 == license_url) then
        licenseLoop net package_name_to_pom rest (addPackage u2p license_url package) u2c
      else
        licenseLoop net package_name_to_pom rest
          (u2p ++ [(license_url, [package])]) (u2c ++ [(license_url, license_content)])

/-- The rendering loop of lines 212–219: iterate the keys of the
url-to-packages dictionary in insertion order and concatenate one block per
key. -/
def renderNotices (license_url_to_package : List (String × List String))
    (license_url_to_content : Dict) : String :=
  (license_url_to_package.map Prod.fst).foldl
    (fun acc license_url =>
      acc ++ "License for package(s): " ++ pyStrList (pkgsGet license_url_to_package license_url)
        ++ "\n\n" ++ contentGet license_url_to_content license_url ++ SPACER) ""

/-- Lines 198–219: group the packages by resolved license URL and render
the notices document. -/
def aggregate (net : Net) (ghList : List String) (package_name_to_pom : Dict) :
    Except Fatal String :=
  match licenseLoop net package_name_to_pom ghList [] [] with
  | .error e => .error e
  | .ok (u2p, u2c) => .ok (renderNotices u2p u2c)

/-! ## ManifestSynchronizer and the whole run -/

/-- The observable outcome of a run: the process exit code, the content of
the notices file when the process ends, and the fatal condition if one was
hit. -/
structure MainResult where
  exitCode : Nat
  noticesFile : String
  fatal : Option Fatal
deriving DecidableEq

/-- Lines 222–239 of `main`: update mode overwrites the file
unconditionally and exits 0; check mode reads and compares, writing
nothing, and exits 0 exactly on byte equality. -/
def syncNotices (update : Bool) (rendered oldContent : String) : MainResult :=
  if update then ⟨0, rendered, none⟩
  else if oldContent = rendered then ⟨0, oldContent, none⟩
  else ⟨1, oldContent, some .noticesDrift⟩

/-- The whole of `main` after argument and bzl loading: the two lists, the
update flag and the current notices file content are the inputs; every
fatal condition ends the run with exit code 1 and the file untouched. -/
def mainRun (net : Net) (parseXml : XmlOracle)
    (maven_artifacts pom_gradle_filelist : List String)
    (update : Bool) (oldNotices : String) : MainResult :=
  match reconcile net parseXml maven_artifacts pom_gradle_filelist with
  | .error e => ⟨1, oldNotices, some e⟩
  | .ok (ghList, package_name_to_pom) =>
    match aggregate net ghList package_name_to_pom with
    | .error e => ⟨1, oldNotices, some e⟩
    | .ok doc => syncNotices update doc oldNotices

/-! ## Reference forms for grouping

These definitions restate, in closed form, what the accumulation loops of
the script build; the lemmas below prove the loops equal to them. -/

/-- Accumulate a key if it has not been seen yet (one step of first-seen
deduplication). -/
def seenStep (ks : List String) (t : String) : List String :=
  if t ∈ ks then ks else ks ++ [t]

/-- The distinct members of a list, in order of first appearance. -/
def firstSeenKeys (l : List String) : List String := l.foldl seenStep []

/-- The url-to-packages dictionary in closed form: one entry per distinct
resolved location in first-seen order, carrying the packages resolving to
it in their original order. -/
def groupedPackages (locOf : String → String) (pkgs : List String) :
    List (String × List String) :=
  (firstSeenKeys (pkgs.map locOf)).map
    (fun k => (k, pkgs.filter (fun p => locOf p == k)))

/-- The url-to-content dictionary in closed form. -/
def groupedContents (locOf contOf : String → String) (pkgs : List String) : Dict :=
  (firstSeenKeys (pkgs.map locOf)).map (fun k => (k, contOf k))

/-! ## Supporting lemmas -/

theorem gradleStep_fst (acc : String × String) (line : String) :
    (gradleStep acc line).1 =
      if pyContains line "groupId" then get_grad_rval line else acc.1 := by
  unfold gradleStep
  cases h1 : pyContains line "groupId" <;> cases h2 : pyContains line "artifactId" <;>
    simp [h1, h2]

theorem gradleStep_snd (acc : String × String) (line : String) :
    (gradleStep acc line).2 =
      if pyContains line "artifactId" then get_grad_rval line else acc.2 := by
  unfold gradleStep
  cases h1 : pyContains line "groupId" <;> cases h2 : pyContains line "artifactId" <;>
    simp [h1, h2]

/-- The group field of the gradle line scan is the fold of the rval
extraction over the lines containing the groupId token. -/
theorem gradleFold_fst (lines : List String) :
    ∀ acc : String × String,
      (lines.foldl gradleStep acc).1 =
        (lines.filter (fun l => pyContains l "groupId")).foldl
          (fun _ l => get_grad_rval l) acc.1 := by
  induction lines with
  | nil => intro acc; rfl
  | cons line rest ih =>
    intro acc
    rw [List.foldl_cons, ih, gradleStep_fst, List.filter_cons]
    cases h : pyContains line "groupId" <;> simp [h]

/-- The artifact field of the gradle line scan, analogously. -/
theorem gradleFold_snd (lines : List String) :
    ∀ acc : String × String,
      (lines.foldl gradleStep acc).2 =
        (lines.filter (fun l => pyContains l "artifactId")).foldl
          (fun _ l => get_grad_rval l) acc.2 := by
  induction lines with
  | nil => intro acc; rfl
  | cons line rest ih =>
    intro acc
    rw [List.foldl_cons, ih, gradleStep_snd, List.filter_cons]
    cases h : pyContains line "artifactId" <;> simp [h]

/-- A fold that keeps only the newest value returns the last element. -/
theorem foldl_last_wins {α : Type} (f : String → α) (xs : List String) :
    ∀ init : α, xs.foldl (fun _ x => f x) init = (xs.getLast?).elim init f := by
  induction xs with
  | nil => intro init; rfl
  | cons x xs ih =>
    intro init
    cases xs with
    | nil => rfl
    | cons y ys =>
      rw [List.foldl_cons, ih (f x), List.getLast?_cons_cons]
      have hs : ∃ z, (y :: ys).getLast? = some z := by
        have := List.getLast?_isSome (l := y :: ys)
        simp only [ne_eq, reduceCtorEq, not_false_eq_true, iff_true] at this
        exact Option.isSome_iff_exists.mp this
      obtain ⟨z, hz⟩ := hs
      rw [hz]
      rfl

/-- Membership after first-seen accumulation. -/
theorem mem_foldl_seenStep (l : List String) :
    ∀ (ks : List String) (x : String),
      x ∈ l.foldl seenStep ks ↔ x ∈ ks ∨ x ∈ l := by
  induction l with
  | nil => intro ks x; simp
  | cons a l ih =>
    intro ks x
    rw [List.foldl_cons, ih]
    unfold seenStep
    by_cases h : a ∈ ks
    · rw [if_pos h]
      constructor
      · rintro (hx | hx)
        · exact Or.inl hx
        · exact Or.inr (List.mem_cons_of_mem a hx)
      · rintro (hx | hx)
        · exact Or.inl hx
        · rcases List.mem_cons.mp hx with rfl | hx
          · exact Or.inl h
          · exact Or.inr hx
    · rw [if_neg h]
      simp only [List.mem_append, List.mem_singleton, List.mem_cons]
      tauto

/-- First-seen accumulation keeps keys distinct. -/
theorem nodup_foldl_seenStep (l : List String) :
    ∀ ks : List String, ks.Nodup → (l.foldl seenStep ks).Nodup := by
  induction l with
  | nil => intro ks h; exact h
  | cons a l ih =>
    intro ks h
    rw [List.foldl_cons]
    apply ih
    unfold seenStep
    by_cases ha : a ∈ ks
    · rwa [if_pos ha]
    · rw [if_neg ha]
      refine List.Nodup.append h (List.nodup_singleton a) ?_
      intro x hx hx1
      rw [List.mem_singleton] at hx1
      subst hx1
      exact ha hx

/-- On a list of distinct keys none of which was seen, first-seen
accumulation appends the whole list. -/
theorem foldl_seenStep_nodup (l : List String) :
    ∀ ks : List String, l.Nodup → (∀ x ∈ l, x ∉ ks) →
      l.foldl seenStep ks = ks ++ l := by
  induction l with
  | nil => intro ks _ _; simp
  | cons a l ih =>
    intro ks hnd hdisj
    rw [List.foldl_cons]
    have ha : a ∉ ks := hdisj a (List.mem_cons_self a l)
    rw [seenStep, if_neg ha]
    rw [ih (ks ++ [a]) hnd.of_cons ?_]
    · rw [List.append_assoc, List.singleton_append]
    · intro x hx
      simp only [List.mem_append, List.mem_singleton]
      rintro (hk | rfl)
      · exact hdisj x (List.mem_cons_of_mem a hx) hk
      · exact (List.nodup_cons.mp hnd).1 hx

/-- The key-presence test of the script against key membership. -/
theorem dict_hasKey_iff (d : Dict) (k : String) :
    d.any (fun p => p.1 == k) = true ↔ k ∈ d.map Prod.fst := by
  simp only [List.any_eq_true, List.mem_map, beq_iff_eq]

/-- Inserting into a Python dictionary extends its key sequence by
first-seen accumulation. -/
theorem dictInsert_keys (d : Dict) (k v : String) :
    (dictInsert d k v).map Prod.fst = seenStep (d.map Prod.fst) k := by
  unfold dictInsert seenStep
  by_cases h : k ∈ d.map Prod.fst
  · rw [if_pos ((dict_hasKey_iff d k).mpr h), if_pos h, List.map_map]
    apply List.map_congr_left
    intro p _
    simp only [Function.comp_apply]
    by_cases hb : p.1 == k
    · rw [if_pos hb]
      exact (beq_iff_eq.mp hb).symm
    · rw [if_neg hb]
  · rw [if_neg (fun hc => h ((dict_hasKey_iff d k).mp hc)), if_neg h, List.map_append]
    rfl

/-- What a successful descriptor loop produces: one derived name per URL,
appended to the accumulator in order, and a dictionary whose key sequence
is the first-seen accumulation of the derived names. -/
theorem buildLoop_spec (net : Net) (parseXml : XmlOracle) :
    ∀ (urls acc : List String) (d : Dict) (gh : List String) (dOut : Dict),
      buildLoop net parseXml urls acc d = .ok (gh, dOut) →
      ∃ tmps : List String,
        tmps.length = urls.length ∧ gh = acc ++ tmps ∧
        dOut.map Prod.fst = tmps.foldl seenStep (d.map Prod.fst) := by
  intro urls
  induction urls with
  | nil =>
    intro acc d gh dOut h
    simp only [buildLoop, Except.ok.injEq, Prod.mk.injEq] at h
    obtain ⟨h1, h2⟩ := h
    subst h1
    subst h2
    exact ⟨[], rfl, by simp, rfl⟩
  | cons url rest ih =>
    intro acc d gh dOut h
    rw [buildLoop] at h
    split at h
    · split at h
      · exact Except.noConfusion h
      · rename_i tmp heq
        obtain ⟨tmps, hlen, hgh, hkeys⟩ := ih _ _ gh dOut h
        refine ⟨tmp :: tmps, by simp [hlen], ?_, ?_⟩
        · rw [hgh, List.append_assoc, List.singleton_append]
        · rw [List.foldl_cons, ← dictInsert_keys]
          exact hkeys
    · split at h
      · split at h
        · exact Except.noConfusion h
        · rename_i tmp heq
          obtain ⟨tmps, hlen, hgh, hkeys⟩ := ih _ _ gh dOut h
          refine ⟨tmp :: tmps, by simp [hlen], ?_, ?_⟩
          · rw [hgh, List.append_assoc, List.singleton_append]
          · rw [List.foldl_cons, ← dictInsert_keys]
            exact hkeys
      · exact Except.noConfusion h

/-- The key-presence test on any association list. -/
theorem anyKey_iff {β : Type} (d : List (String × β)) (k : String) :
    d.any (fun p => p.1 == k) = true ↔ k ∈ d.map Prod.fst := by
  simp only [List.any_eq_true, List.mem_map, beq_iff_eq]

/-- First-seen deduplication preserves membership. -/
theorem mem_firstSeenKeys (l : List String) (x : String) :
    x ∈ firstSeenKeys l ↔ x ∈ l := by
  unfold firstSeenKeys
  rw [mem_foldl_seenStep]
  simp

/-- Appending one element to the scanned list extends the first-seen keys
by one step. -/
theorem firstSeenKeys_concat (l : List String) (y : String) :
    firstSeenKeys (l ++ [y]) =
      if y ∈ firstSeenKeys l then firstSeenKeys l else firstSeenKeys l ++ [y] := by
  unfold firstSeenKeys
  rw [List.foldl_append, List.foldl_cons, List.foldl_nil]
  rfl

/-- Projecting the keys out of an association list built by pairing each
key with a computed value gives back the keys. -/
theorem map_fst_keyed {β : Type} (F : String → β) (ks : List String) :
    (ks.map (fun j => (j, F j))).map Prod.fst = ks := by
  induction ks with
  | nil => rfl
  | cons j ks ih => simp only [List.map_cons, ih]

theorem groupedPackages_keys (locOf : String → String) (pkgs : List String) :
    (groupedPackages locOf pkgs).map Prod.fst = firstSeenKeys (pkgs.map locOf) := by
  unfold groupedPackages
  exact map_fst_keyed _ _

theorem groupedContents_keys (locOf contOf : String → String) (pkgs : List String) :
    (groupedContents locOf contOf pkgs).map Prod.fst = firstSeenKeys (pkgs.map locOf) := by
  unfold groupedContents
  exact map_fst_keyed _ _

theorem groupedPackages_nil (locOf : String → String) : groupedPackages locOf [] = [] := rfl

theorem groupedContents_nil (locOf contOf : String → String) :
    groupedContents locOf contOf [] = [] := rfl

/-- Lookup in an association list built from distinct-or-not keys by a
function: any entry for `k` carries `F k`. -/
theorem find_map_key {β : Type} (F : String → β) (ks : List String) (k : String) :
    k ∈ ks →
      (ks.map (fun j => (j, F j))).find? (fun q => q.1 == k) = some (k, F k) := by
  induction ks with
  | nil => intro h; cases h
  | cons j ks ih =>
    intro h
    rw [List.map_cons]
    by_cases hj : j = k
    · subst hj
      rw [List.find?_cons_of_pos _ (by simp)]
    · rw [List.find?_cons_of_neg _ (by simp [hj])]
      rcases List.mem_cons.mp h with rfl | hk
      · exact absurd rfl hj
      · exact ih hk

/-- Extending the grouped packages with a package whose location was
already seen appends it to the existing group. -/
theorem groupedPackages_concat_mem (locOf : String → String) (done : List String) (p : String)
    (h : locOf p ∈ done.map locOf) :
    groupedPackages locOf (done ++ [p]) = addPackage (groupedPackages locOf done) (locOf p) p := by
  unfold groupedPackages addPackage
  simp only [List.map_append, List.map_cons, List.map_nil]
  have hk : firstSeenKeys (done.map locOf ++ [locOf p]) = firstSeenKeys (done.map locOf) := by
    rw [firstSeenKeys_concat, if_pos ((mem_firstSeenKeys _ _).mpr h)]
  rw [hk, List.map_map]
  apply List.map_congr_left
  intro k _
  simp only [Function.comp_apply]
  by_cases hb : k = locOf p
  · subst hb
    simp [List.filter_append]
  · have h1 : (k == locOf p) = false := by simp [hb]
    have h2 : (locOf p == k) = false := by
      simp only [beq_eq_false_iff_ne, ne_eq]
      exact fun hc => hb hc.symm
    simp [List.filter_append, h1, h2]

/-- Extending the grouped packages with a package carrying a new location
appends a fresh one-package group. -/
theorem groupedPackages_concat_new (locOf : String → String) (done : List String) (p : String)
    (h : locOf p ∉ done.map locOf) :
    groupedPackages locOf (done ++ [p]) =
      groupedPackages locOf done ++ [(locOf p, [p])] := by
  unfold groupedPackages
  simp only [List.map_append, List.map_cons, List.map_nil]
  have hk : firstSeenKeys (done.map locOf ++ [locOf p]) =
      firstSeenKeys (done.map locOf) ++ [locOf p] := by
    rw [firstSeenKeys_concat, if_neg (fun hc => h ((mem_firstSeenKeys _ _).mp hc))]
  rw [hk, List.map_append]
  have hpart1 : List.map (fun k => (k, (done ++ [p]).filter (fun q => locOf q == k)))
      (firstSeenKeys (done.map locOf)) =
      List.map (fun k => (k, done.filter (fun q => locOf q == k)))
      (firstSeenKeys (done.map locOf)) := by
    apply List.map_congr_left
    intro k hkmem
    have hkd : k ∈ done.map locOf := (mem_firstSeenKeys _ _).mp hkmem
    have hne : (locOf p == k) = false := by
      simp only [beq_eq_false_iff_ne, ne_eq]
      intro hc
      exact h (hc ▸ hkd)
    rw [List.filter_append]
    simp [List.filter_cons, hne]
  have hpart2 : List.map (fun k => (k, (done ++ [p]).filter (fun q => locOf q == k)))
      [locOf p] = [(locOf p, [p])] := by
    simp only [List.map_cons, List.map_nil]
    rw [List.filter_append]
    have hdone : done.filter (fun q => locOf q == locOf p) = [] := by
      apply List.filter_eq_nil_iff.mpr
      intro q hq
      simp only [beq_eq_false_iff_ne, ne_eq, Bool.not_eq_true, beq_eq_false_iff_ne]
      exact fun hc => h (hc ▸ List.mem_map_of_mem locOf hq)
    simp [hdone, List.filter_cons]
  rw [hpart1, hpart2]

/-- Extending the grouped contents with a package whose location was
already seen changes nothing. -/
theorem groupedContents_concat_mem (locOf contOf : String → String)
    (done : List String) (p : String) (h : locOf p ∈ done.map locOf) :
    groupedContents locOf contOf (done ++ [p]) = groupedContents locOf contOf done := by
  unfold groupedContents
  simp only [List.map_append, List.map_cons, List.map_nil]
  rw [firstSeenKeys_concat, if_pos ((mem_firstSeenKeys _ _).mpr h)]

/-- Extending the grouped contents with a package carrying a new location
appends its content entry. -/
theorem groupedContents_concat_new (locOf contOf : String → String)
    (done : List String) (p : String) (h : locOf p ∉ done.map locOf) :
    groupedContents locOf contOf (done ++ [p]) =
      groupedContents locOf contOf done ++ [(locOf p, contOf (locOf p))] := by
  unfold groupedContents
  simp only [List.map_append, List.map_cons, List.map_nil]
  rw [firstSeenKeys_concat,
    if_neg (fun hc => h ((mem_firstSeenKeys _ _).mp hc)), List.map_append]
  rfl

/-- A fold over a list is determined by the values of the folded function
on the members of the list. -/
theorem foldl_congr_mem {α β : Type} (l : List α) (f g : β → α → β) :
    (∀ b x, x ∈ l → f b x = g b x) → ∀ b, l.foldl f b = l.foldl g b := by
  induction l with
  | nil => intro _ b; rfl
  | cons a l ih =>
    intro h b
    rw [List.foldl_cons, List.foldl_cons, h b a (List.mem_cons_self a l)]
    exact ih (fun c x hx => h c x (List.mem_cons_of_mem a hx)) _

/-- The grouping loop of the script computes the closed-form grouping:
starting from the groups of the already-processed packages, processing the
remaining packages extends them to the groups of the whole sequence,
provided every remaining package resolves, with a content that is a
function of the resolved location. -/
theorem licenseLoop_group (net : Net) (d : Dict) (locOf contOf : String → String)
    (pkgs : List String) :
    ∀ done : List String,
      (∀ p ∈ pkgs, licenseFor net d p = .ok (locOf p, contOf (locOf p))) →
      licenseLoop net d pkgs (groupedPackages locOf done)
          (groupedContents locOf contOf done) =
        .ok (groupedPackages locOf (done ++ pkgs),
          groupedContents locOf contOf (done ++ pkgs)) := by
  induction pkgs with
  | nil => intro done h; simp [licenseLoop]
  | cons p rest ih =>
    intro done h
    simp only [licenseLoop, h p (List.mem_cons_self p rest)]
    by_cases hmem : locOf p ∈ done.map locOf
    · have hany : (groupedPackages locOf done).any (fun q => q.1 == locOf p) = true := by
        rw [anyKey_iff, groupedPackages_keys, mem_firstSeenKeys]
        exact hmem
      rw [if_pos hany, ← groupedPackages_concat_mem locOf done p hmem,
        ← groupedContents_concat_mem locOf contOf done p hmem,
        List.append_cons done p rest]
      exact ih (done ++ [p]) (fun q hq => h q (List.mem_cons_of_mem p hq))
    · have hany : (groupedPackages locOf done).any (fun q => q.1 == locOf p) = false := by
        rw [← Bool.not_eq_true, anyKey_iff, groupedPackages_keys, mem_firstSeenKeys]
        · simp [hmem]
      rw [if_neg (by simp [hany]), ← groupedPackages_concat_new locOf done p hmem,
        ← groupedContents_concat_new locOf contOf done p hmem,
        List.append_cons done p rest]
      exact ih (done ++ [p]) (fun q hq => h q (List.mem_cons_of_mem p hq))

/-- Rendering the closed-form grouping: one block per distinct location in
first-seen order, each block holding the header over its package group, a
blank line, the content of the location and the spacer. -/
theorem renderNotices_grouped (locOf contOf : String → String) (pkgs : List String) :
    renderNotices (groupedPackages locOf pkgs) (groupedContents locOf contOf pkgs) =
      (firstSeenKeys (pkgs.map locOf)).foldl
        (fun acc k => acc ++ "License for package(s): "
          ++ pyStrList (pkgs.filter (fun p => locOf p == k))
          ++ "\n\n" ++ contOf k ++ SPACER) "" := by
  unfold renderNotices
  rw [groupedPackages_keys]
  apply foldl_congr_mem
  intro b k hk
  have h1 : pkgsGet (groupedPackages locOf pkgs) k =
      pkgs.filter (fun p => locOf p == k) := by
    unfold pkgsGet groupedPackages
    rw [find_map_key _ _ _ hk]
    rfl
  have h2 : contentGet (groupedContents locOf contOf pkgs) k = contOf k := by
    unfold contentGet dictGet groupedContents
    rw [find_map_key _ _ _ hk]
    rfl
  rw [h1, h2]

/-! ### Lemmas on the split and replace models (for the URL rewrite) -/

theorem splitLF_nil (sep : List Char) (f : Nat) : splitLF sep f [] = [[]] := by
  cases f <;> rfl

theorem replaceLF_nil (pat rep : List Char) (f : Nat) : replaceLF pat rep f [] = [] := by
  cases f <;> rfl

/-- Any sufficient fuel computes the same split. -/
theorem splitLF_fuel (sep : List Char) :
    ∀ (f1 : Nat) (s : List Char) (f2 : Nat), s.length ≤ f1 → s.length ≤ f2 →
      splitLF sep f1 s = splitLF sep f2 s := by
  intro f1
  induction f1 with
  | zero =>
    intro s f2 h1 h2
    have hs : s = [] := List.eq_nil_of_length_eq_zero (Nat.le_zero.mp h1)
    subst hs
    rw [splitLF_nil, splitLF_nil]
  | succ g ih =>
    intro s f2 h1 h2
    cases s with
    | nil => rw [splitLF_nil, splitLF_nil]
    | cons c rest =>
      cases f2 with
      | zero => simp at h2
      | succ g2 =>
        simp only [splitLF]
        have hr : rest.length ≤ g := by
          simp only [List.length_cons] at h1
          omega
        have hr2 : rest.length ≤ g2 := by
          simp only [List.length_cons] at h2
          omega
        have e1 : splitLF sep g (rest.drop (sep.length - 1)) =
            splitLF sep g2 (rest.drop (sep.length - 1)) := by
          apply ih
          · rw [List.length_drop]
            omega
          · rw [List.length_drop]
            omega
        have e2 : splitLF sep g rest = splitLF sep g2 rest := ih rest g2 hr hr2
        rw [e1, e2]

/-- Any sufficient fuel computes the same replacement. -/
theorem replaceLF_fuel (pat rep : List Char) :
    ∀ (f1 : Nat) (s : List Char) (f2 : Nat), s.length ≤ f1 → s.length ≤ f2 →
      replaceLF pat rep f1 s = replaceLF pat rep f2 s := by
  intro f1
  induction f1 with
  | zero =>
    intro s f2 h1 h2
    have hs : s = [] := List.eq_nil_of_length_eq_zero (Nat.le_zero.mp h1)
    subst hs
    rw [replaceLF_nil, replaceLF_nil]
  | succ g ih =>
    intro s f2 h1 h2
    cases s with
    | nil => rw [replaceLF_nil, replaceLF_nil]
    | cons c rest =>
      cases f2 with
      | zero => simp at h2
      | succ g2 =>
        simp only [replaceLF]
        have hr : rest.length ≤ g := by
          simp only [List.length_cons] at h1
          omega
        have hr2 : rest.length ≤ g2 := by
          simp only [List.length_cons] at h2
          omega
        have e1 : replaceLF pat rep g (rest.drop (pat.length - 1)) =
            replaceLF pat rep g2 (rest.drop (pat.length - 1)) := by
          apply ih
          · rw [List.length_drop]
            omega
          · rw [List.length_drop]
            omega
        have e2 : replaceLF pat rep g rest = replaceLF pat rep g2 rest := ih rest g2 hr hr2
        rw [e1, e2]

/-- A pattern with an occurrence is contained. -/
theorem hasOccur_append_self (sep : List Char) (hsep : sep ≠ []) :
    ∀ X Y : List Char, hasOccur sep (X ++ sep ++ Y) = true := by
  intro X
  induction X with
  | nil =>
    intro Y
    obtain ⟨d, sep2, rfl⟩ : ∃ d sep2, sep = d :: sep2 := by
      cases sep with
      | nil => exact absurd rfl hsep
      | cons d sep2 => exact ⟨d, sep2, rfl⟩
    show ((d :: sep2).isPrefixOf ((d :: sep2) ++ Y) || hasOccur (d :: sep2) (sep2 ++ Y)) = true
    have hpre : (d :: sep2).isPrefixOf ((d :: sep2) ++ Y) = true := by
      rw [List.isPrefixOf_iff_prefix]
      exact List.prefix_append _ _
    rw [hpre, Bool.true_or]
  | cons x X ih =>
    intro Y
    show (sep.isPrefixOf ((x :: X) ++ sep ++ Y) || hasOccur sep (X ++ sep ++ Y)) = true
    rw [ih Y, Bool.or_true]

/-- Containment is existence of an occurrence position, within bounds. -/
theorem hasOccur_iff_exists (pat : List Char) (hpat : pat ≠ []) :
    ∀ s : List Char,
      hasOccur pat s = true ↔ ∃ i, i ≤ s.length ∧ pat.isPrefixOf (s.drop i) = true := by
  intro s
  induction s with
  | nil =>
    simp only [hasOccur, List.drop_nil, List.length_nil, Nat.le_zero]
    constructor
    · intro h
      exact absurd (List.isEmpty_iff.mp h) hpat
    · rintro ⟨i, -, hi⟩
      cases pat with
      | nil => exact absurd rfl hpat
      | cons d p2 => simp [List.isPrefixOf] at hi
  | cons c rest ih =>
    simp only [hasOccur, Bool.or_eq_true, ih, List.length_cons]
    constructor
    · rintro (h | ⟨j, hj, hpj⟩)
      · exact ⟨0, by omega, h⟩
      · exact ⟨j + 1, by omega, by simpa using hpj⟩
    · rintro ⟨i, hi, hpi⟩
      cases i with
      | zero => exact Or.inl hpi
      | succ j => exact Or.inr ⟨j, by omega, by simpa using hpi⟩

/-- Splitting a string with no occurrence of the separator returns the
whole string. -/
theorem splitLF_no_occur (sep : List Char) :
    ∀ (s : List Char) (f : Nat), s.length ≤ f → hasOccur sep s = false →
      splitLF sep f s = [s] := by
  intro s
  induction s with
  | nil => intro f _ _; rw [splitLF_nil]
  | cons c rest ih =>
    intro f hf hocc
    cases f with
    | zero => simp at hf
    | succ g =>
      simp only [hasOccur, Bool.or_eq_false_iff] at hocc
      simp only [splitLF, hocc.1, Bool.false_and, Bool.false_eq_true, if_false]
      rw [ih g (by simp only [List.length_cons] at hf; omega) hocc.2]

theorem splitL_no_occur (sep : List Char) (s : List Char) (hocc : hasOccur sep s = false) :
    splitL sep s = [s] :=
  splitLF_no_occur sep s s.length (Nat.le_refl _) hocc

/-- Splitting at the unique leading occurrence: everything before the first
occurrence becomes the head part. -/
theorem splitLF_append (sep B : List Char) (hsep : sep ≠ []) :
    ∀ (A : List Char) (f : Nat), (A ++ sep ++ B).length ≤ f →
      (∀ i, i < A.length → sep.isPrefixOf ((A ++ sep ++ B).drop i) = false) →
      splitLF sep f (A ++ sep ++ B) = A :: splitL sep B := by
  obtain ⟨d, sep2, rfl⟩ : ∃ d sep2, sep = d :: sep2 := by
    cases sep with
    | nil => exact absurd rfl hsep
    | cons d sep2 => exact ⟨d, sep2, rfl⟩
  intro A
  induction A with
  | nil =>
    intro f hf hA
    cases f with
    | zero => simp at hf
    | succ g =>
      show (if ((d :: sep2).isPrefixOf ((d :: sep2) ++ B) && !(d :: sep2).isEmpty) = true then
          [] :: splitLF (d :: sep2) g ((sep2 ++ B).drop ((d :: sep2).length - 1))
        else
          match splitLF (d :: sep2) g (sep2 ++ B) with
          | [] => [[d]]
          | r :: rs => (d :: r) :: rs) = [] :: splitL (d :: sep2) B
      have hcond : ((d :: sep2).isPrefixOf ((d :: sep2) ++ B) && !(d :: sep2).isEmpty) = true := by
        have hpre : (d :: sep2).isPrefixOf ((d :: sep2) ++ B) = true := by
          rw [List.isPrefixOf_iff_prefix]
          exact List.prefix_append _ _
        rw [hpre]
        rfl
      rw [if_pos hcond]
      have hdrop : (sep2 ++ B).drop ((d :: sep2).length - 1) = B := by
        simp only [List.length_cons, Nat.add_sub_cancel]
        exact List.drop_left sep2 B
      rw [hdrop]
      have hfu : splitLF (d :: sep2) g B = splitL (d :: sep2) B := by
        apply splitLF_fuel
        · simp only [List.nil_append, List.cons_append, List.length_cons,
            List.length_append] at hf
          omega
        · exact Nat.le_refl _
      rw [hfu]
  | cons a A2 ihA =>
    intro f hf hA
    cases f with
    | zero => simp at hf
    | succ g =>
      show (if ((d :: sep2).isPrefixOf ((a :: A2) ++ (d :: sep2) ++ B) && !(d :: sep2).isEmpty) = true then
          [] :: splitLF (d :: sep2) g ((A2 ++ (d :: sep2) ++ B).drop ((d :: sep2).length - 1))
        else
          match splitLF (d :: sep2) g (A2 ++ (d :: sep2) ++ B) with
          | [] => [[a]]
          | r :: rs => (a :: r) :: rs) = (a :: A2) :: splitL (d :: sep2) B
      have h0 : (d :: sep2).isPrefixOf ((a :: A2) ++ (d :: sep2) ++ B) = false := by
        have := hA 0 (by simp)
        simpa using this
      have hcond : ((d :: sep2).isPrefixOf ((a :: A2) ++ (d :: sep2) ++ B)
          && !(d :: sep2).isEmpty) = false := by
        rw [h0, Bool.false_and]
      rw [if_neg (by rw [hcond]; exact Bool.false_ne_true)]
      have hrec : splitLF (d :: sep2) g (A2 ++ (d :: sep2) ++ B) =
          A2 :: splitL (d :: sep2) B := by
        apply ihA
        · simp only [List.cons_append, List.length_cons, List.append_assoc,
            List.length_append] at hf ⊢
          omega
        · intro i hi
          have := hA (i + 1) (by simp only [List.length_cons]; omega)
          simpa using this
      rw [hrec]

theorem splitL_append (sep A B : List Char) (hsep : sep ≠ [])
    (hA : ∀ i, i < A.length → sep.isPrefixOf ((A ++ sep ++ B).drop i) = false) :
    splitL sep (A ++ sep ++ B) = A :: splitL sep B :=
  splitLF_append sep B hsep A (A ++ sep ++ B).length (Nat.le_refl _) hA

/-- Replacement with no occurrence of the pattern changes nothing. -/
theorem replaceLF_no_occur (pat rep : List Char) :
    ∀ (s : List Char) (f : Nat), s.length ≤ f → hasOccur pat s = false →
      replaceLF pat rep f s = s := by
  intro s
  induction s with
  | nil => intro f _ _; rw [replaceLF_nil]
  | cons c rest ih =>
    intro f hf hocc
    cases f with
    | zero => simp at hf
    | succ g =>
      simp only [hasOccur, Bool.or_eq_false_iff] at hocc
      simp only [replaceLF, hocc.1, Bool.false_and, Bool.false_eq_true, if_false]
      rw [ih g (by simp only [List.length_cons] at hf; omega) hocc.2]

/-- Replacing a pattern that occurs exactly as the head of the string. -/
theorem replaceL_head (pat rep t : List Char) (hpat : pat ≠ [])
    (ht : hasOccur pat t = false) :
    replaceL pat rep (pat ++ t) = rep ++ t := by
  obtain ⟨d, p2, rfl⟩ : ∃ d p2, pat = d :: p2 := by
    cases pat with
    | nil => exact absurd rfl hpat
    | cons d p2 => exact ⟨d, p2, rfl⟩
  unfold replaceL
  have hlen : ((d :: p2) ++ t).length = t.length + p2.length + 1 := by
    simp only [List.cons_append, List.length_cons, List.length_append]
    omega
  rw [hlen]
  show (if ((d :: p2).isPrefixOf ((d :: p2) ++ t) && !(d :: p2).isEmpty) = true then
      rep ++ replaceLF (d :: p2) rep (t.length + p2.length)
        ((p2 ++ t).drop ((d :: p2).length - 1))
    else d :: replaceLF (d :: p2) rep (t.length + p2.length) (p2 ++ t)) = rep ++ t
  have hcond : ((d :: p2).isPrefixOf ((d :: p2) ++ t) && !(d :: p2).isEmpty) = true := by
    have hpre : (d :: p2).isPrefixOf ((d :: p2) ++ t) = true := by
      rw [List.isPrefixOf_iff_prefix]
      exact List.prefix_append _ _
    rw [hpre]
    rfl
  rw [if_pos hcond]
  have hdrop : (p2 ++ t).drop ((d :: p2).length - 1) = t := by
    simp only [List.length_cons, Nat.add_sub_cancel]
    exact List.drop_left p2 t
  rw [hdrop]
  rw [replaceLF_no_occur (d :: p2) rep t (t.length + p2.length) (by omega) ht]

/-- Dropping the length of the appended tail recovers the front. -/
theorem dropRightL_append (X Y : List Char) : dropRightL Y.length (X ++ Y) = X := by
  unfold dropRightL
  rw [List.length_append, Nat.add_sub_cancel, List.take_left]

/-- The marker loop of the fetcher at a URL containing exactly one
occurrence of exactly one recognized branch root: the rewrite deletes the
five characters immediately before the marker, whatever they are, and
keeps the remainder. -/
theorem raw_url_rewrite (marker : String) (hm : marker ∈ branch_roots)
    (A B : List Char)
    (hocc : ∀ br ∈ branch_roots, ∀ i, i ≤ (A ++ marker.data ++ B).length →
      br.data.isPrefixOf ((A ++ marker.data ++ B).drop i) = true →
      br = marker ∧ i = A.length) :
    raw_file_url_of (String.mk (A ++ marker.data ++ B)) =
      String.mk (dropRightL 5 A ++ marker.data ++ B) := by
  have hmne : marker.data ≠ [] := by
    simp only [branch_roots, List.mem_cons, List.mem_singleton, List.not_mem_nil,
      or_false] at hm
    rcases hm with rfl | rfl <;> decide
  have hmlen : 0 < marker.data.length := List.length_pos.mpr hmne
  have hcont : hasOccur marker.data (A ++ marker.data ++ B) = true :=
    hasOccur_append_self marker.data hmne A B
  have hA : ∀ i, i < A.length →
      marker.data.isPrefixOf ((A ++ marker.data ++ B).drop i) = false := by
    intro i hi
    cases hp : marker.data.isPrefixOf ((A ++ marker.data ++ B).drop i) with
    | false => rfl
    | true =>
      have hib : i ≤ (A ++ marker.data ++ B).length := by
        simp only [List.length_append]
        omega
      obtain ⟨-, hieq⟩ := hocc marker hm i hib hp
      omega
  have hB : hasOccur marker.data B = false := by
    cases hOB : hasOccur marker.data B with
    | false => rfl
    | true =>
      obtain ⟨j, hj, hpj⟩ := (hasOccur_iff_exists marker.data hmne B).mp hOB
      have hdropeq : (A ++ marker.data ++ B).drop ((A ++ marker.data).length + j) =
          B.drop j := by
        rw [← List.drop_drop, List.drop_left]
      have hlift : marker.data.isPrefixOf
          ((A ++ marker.data ++ B).drop ((A ++ marker.data).length + j)) = true := by
        rw [hdropeq]
        exact hpj
      have hib : (A ++ marker.data).length + j ≤ (A ++ marker.data ++ B).length := by
        simp only [List.length_append]
        omega
      obtain ⟨-, hieq⟩ := hocc marker hm _ hib hlift
      rw [List.length_append] at hieq
      omega
  have hsplit : splitL marker.data (A ++ marker.data ++ B) = [A, B] := by
    rw [splitL_append marker.data A B hmne hA, splitL_no_occur marker.data B hB]
  have hfind : branch_roots.find?
      (fun br => pyContains (String.mk (A ++ marker.data ++ B)) br) = some marker := by
    have hcx : pyContains (String.mk (A ++ marker.data ++ B)) marker = true := hcont
    have hm2 := hm
    simp only [branch_roots, List.mem_cons, List.mem_singleton, List.not_mem_nil,
      or_false] at hm2
    rcases hm2 with rfl | rfl
    · show List.find? _ ["master/", "main/"] = some "master/"
      rw [List.find?_cons_of_pos _ hcx]
    · have hmaster : pyContains (String.mk (A ++ ("main/" : String).data ++ B))
          "master/" = false := by
        cases hcm : pyContains (String.mk (A ++ ("main/" : String).data ++ B))
            "master/" with
        | false => rfl
        | true =>
          have hne2 : ("master/" : String).data ≠ [] := by decide
          have hcm2 : hasOccur ("master/" : String).data
              (A ++ ("main/" : String).data ++ B) = true := hcm
          obtain ⟨i, hi, hpi⟩ := (hasOccur_iff_exists _ hne2 _).mp hcm2
          obtain ⟨heq, -⟩ := hocc "master/" (by simp [branch_roots]) i hi hpi
          exact absurd heq (by decide)
      show List.find? _ ["master/", "main/"] = some "main/"
      rw [List.find?_cons_of_neg _ (by rw [hmaster]; exact Bool.false_ne_true),
        List.find?_cons_of_pos _ hcx]
  simp only [raw_file_url_of, hfind]
  have hps : pySplit (String.mk (A ++ marker.data ++ B)) marker =
      [String.mk A, String.mk B] := by
    show (splitL marker.data (A ++ marker.data ++ B)).map String.mk = _
    rw [hsplit]
    rfl
  rw [hps]
  rfl

/-! ## Claims -/

/-- Claim C9: synchronization in check mode never writes to the notices
file path — the persisted file is unchanged whether the comparison succeeds
or fails, and failure exits non-zero after a byte-for-byte inequality —
while in update mode it always overwrites the file with the rendered
document and exits successfully, even when the new content equals the
existing content.  The file content after the run is the `noticesFile`
field of the result; the final clause extends the no-write guarantee of
check mode to the whole run, whatever the network and parser return. -/
theorem C9_sync_check_never_writes (rendered oldContent : String) :
    (syncNotices false rendered oldContent).noticesFile = oldContent ∧
    (oldContent = rendered → syncNotices false rendered oldContent = ⟨0, oldContent, none⟩) ∧
    (oldContent ≠ rendered →
      syncNotices false rendered oldContent = ⟨1, oldContent, some .noticesDrift⟩) ∧
    syncNotices true rendered oldContent = ⟨0, rendered, none⟩ ∧
    (∀ (net : Net) (parseXml : XmlOracle) (maven urls : List String),
      (mainRun net parseXml maven urls false oldContent).noticesFile = oldContent) := by
  refine ⟨?_, ?_, ?_, ?_, ?_⟩
  · unfold syncNotices
    simp only [Bool.false_eq_true, if_false]
    split <;> rfl
  · intro h
    simp [syncNotices, h]
  · intro h
    simp [syncNotices, h]
  · rfl
  · intro net parseXml maven urls
    cases hr : reconcile net parseXml maven urls with
    | error e => simp [mainRun, hr]
    | ok p =>
      obtain ⟨ghList, d⟩ := p
      cases ha : aggregate net ghList d with
      | error e => simp [mainRun, hr, ha]
      | ok doc =>
        simp only [mainRun, hr, ha, syncNotices, Bool.false_eq_true, if_false]
        split <;> rfl

/-- Witness for C9 at concrete inputs: a drifted check run keeps the file
and exits 1, and an update run with identical content still succeeds with
the rendered document in the file. -/
theorem C9_sync_check_never_writes_witness :
    ("old" : String) ≠ "new" ∧
    syncNotices false "new" "old" = ⟨1, "old", some .noticesDrift⟩ ∧
    syncNotices true "same" "same" = ⟨0, "same", none⟩ := by
  refine ⟨by decide, (C9_sync_check_never_writes "new" "old").2.2.1 (by decide),
    (C9_sync_check_never_writes "same" "same").2.2.2.1⟩

/-- Claim C4: for every pair of input lists of differing length,
reconciliation fails with the length-mismatch diagnostic and exit code 1.
The network and XML oracles are universally quantified and the result does
not depend on them — no descriptor is fetched or parsed — and the notices
file keeps its previous content, so no document is rendered or written. -/
theorem C4_length_mismatch (net : Net) (parseXml : XmlOracle)
    (maven_artifacts pom_gradle_filelist : List String)
    (h : maven_artifacts.length ≠ pom_gradle_filelist.length)
    (update : Bool) (oldNotices : String) :
    reconcile net parseXml maven_artifacts pom_gradle_filelist = .error .lengthMismatch ∧
    mainRun net parseXml maven_artifacts pom_gradle_filelist update oldNotices =
      ⟨1, oldNotices, some .lengthMismatch⟩ := by
  have h1 : reconcile net parseXml maven_artifacts pom_gradle_filelist =
      .error .lengthMismatch := by
    unfold reconcile
    exact if_pos h
  refine ⟨h1, ?_⟩
  unfold mainRun
  rw [h1]

/-- Witness for C4: declared list of length 2 against a descriptor list of
length 1, under an arbitrary fixed network and parser. -/
theorem C4_length_mismatch_witness :
    (["g1:a1:1.0", "g2:a2:1.0"] : List String).length ≠ (["u1"] : List String).length ∧
    mainRun (fun _ => none) (fun _ => none) ["g1:a1:1.0", "g2:a2:1.0"] ["u1"] false "old" =
      ⟨1, "old", some .lengthMismatch⟩ :=
  ⟨by decide, (C4_length_mismatch (fun _ => none) (fun _ => none)
      ["g1:a1:1.0", "g2:a2:1.0"] ["u1"] (by decide) false "old").2⟩

/-- Claim C7: for every hosted location given to the fetcher, (1) when the
URL (after the host-prefix rewrite, which the script applies before looking
for a marker) contains no recognized branch marker, the fetcher returns
absent for every network oracle — the result does not depend on the
network, no call is attempted; (2) when a raw URL is derived but the
network answers with a non-success status (`none`), the fetcher returns
absent rather than raising; (3) on a success status it returns the response
body as text. -/
theorem C7_fetcher_absence (net : Net) (github_url : String) :
    (pyContains (pyReplace github_url GITHUB_URL_BASE RAW_FILE_URL_BASE) "master/" = false →
      pyContains (pyReplace github_url GITHUB_URL_BASE RAW_FILE_URL_BASE) "main/" = false →
      get_file_from_github net github_url = none) ∧
    (∀ raw_url,
      raw_file_url_of (pyReplace github_url GITHUB_URL_BASE RAW_FILE_URL_BASE) = raw_url →
      raw_url ≠ "" → net raw_url = none → get_file_from_github net github_url = none) ∧
    (∀ raw_url body,
      raw_file_url_of (pyReplace github_url GITHUB_URL_BASE RAW_FILE_URL_BASE) = raw_url →
      raw_url ≠ "" → net raw_url = some body →
      get_file_from_github net github_url = some body) := by
  refine ⟨?_, ?_, ?_⟩
  · intro h1 h2
    have hno : raw_file_url_of (pyReplace github_url GITHUB_URL_BASE RAW_FILE_URL_BASE) = "" := by
      unfold raw_file_url_of
      simp [branch_roots, List.find?, h1, h2]
    simp [get_file_from_github, hno]
  · intro raw_url hraw hne hnet
    simp [get_file_from_github, hraw, hne, hnet]
  · intro raw_url body hraw hne hnet
    simp [get_file_from_github, hraw, hne, hnet]

/-- Witness for C7: a URL on an unrecognized branch yields absent whatever
the network holds; with a recognized branch, a failing network yields
absent and a succeeding one yields the body. -/
theorem C7_fetcher_absence_witness :
    (pyContains (pyReplace "https://github.com/o/r/blob/dev/pom.xml"
        GITHUB_URL_BASE RAW_FILE_URL_BASE) "master/" = false) ∧
    get_file_from_github (fun _ => some "body") "https://github.com/o/r/blob/dev/pom.xml" = none ∧
    get_file_from_github (fun _ => none) "https://github.com/o/r/blob/main/pom.xml" = none ∧
    get_file_from_github (fun u => if u = "https://raw.githubusercontent.com/o/r/main/pom.xml"
        then some "body" else none) "https://github.com/o/r/blob/main/pom.xml" = some "body" := by
  refine ⟨by decide,
    (C7_fetcher_absence (fun _ => some "body") "https://github.com/o/r/blob/dev/pom.xml").1
      (by decide) (by decide),
    (C7_fetcher_absence (fun _ => none) "https://github.com/o/r/blob/main/pom.xml").2.1
      "https://raw.githubusercontent.com/o/r/main/pom.xml" (by decide) (by decide) rfl,
    (C7_fetcher_absence _ "https://github.com/o/r/blob/main/pom.xml").2.2
      "https://raw.githubusercontent.com/o/r/main/pom.xml" "body" (by decide) (by decide)
      (by decide)⟩

/-- Claim C3: license resolution probes the candidates LICENSE then COPYING
appended to the derived hosting root and returns the first that resolves,
so LICENSE wins over COPYING whenever it resolves; a reference without a
recognized branch marker fails with the no-branch-root diagnostic, which is
distinct from the diagnostic of an unresolvable license; and when no
candidate resolves the run fails with the unresolvable-license
diagnostic. -/
theorem C3_license_probe_order (net : Net) (url root : String) :
    (get_github_root_url url = .ok root →
      ∀ c, get_file_from_github net (root ++ "LICENSE") = some c →
        get_license_from_pom net url = .ok (root ++ "LICENSE", c)) ∧
    (get_github_root_url url = .ok root →
      get_file_from_github net (root ++ "LICENSE") = none →
      ∀ c, get_file_from_github net (root ++ "COPYING") = some c →
        get_license_from_pom net url = .ok (root ++ "COPYING", c)) ∧
    (get_github_root_url url = .ok root →
      get_file_from_github net (root ++ "LICENSE") = none →
      get_file_from_github net (root ++ "COPYING") = none →
      get_license_from_pom net url = .error (.licenseUnresolvable url)) ∧
    (pyContains url "master/" = false → pyContains url "main/" = false →
      get_license_from_pom net url = .error (.noBranchRoot url)) ∧
    Fatal.noBranchRoot url ≠ Fatal.licenseUnresolvable url := by
  refine ⟨?_, ?_, ?_, ?_, fun h => Fatal.noConfusion h⟩
  · intro hroot c hL
    simp [get_license_from_pom, hroot, probeLicense, license_filenames, hL]
  · intro hroot hL c hC
    simp [get_license_from_pom, hroot, probeLicense, license_filenames, hL, hC]
  · intro hroot hL hC
    simp [get_license_from_pom, hroot, probeLicense, license_filenames, hL, hC]
  · intro h1 h2
    have hroot : get_github_root_url url = .error (.noBranchRoot url) := by
      unfold get_github_root_url
      simp [branch_roots, h1, h2]
    simp [get_license_from_pom, hroot]

/-- Witness for C3 on a concrete reference: with both filenames resolvable
LICENSE wins; with LICENSE missing COPYING is used; with neither, the
unresolvable-license diagnostic; without a branch marker, the
no-branch-root diagnostic. -/
theorem C3_license_probe_order_witness :
    get_license_from_pom
      (fun u => if u = "https://raw.githubusercontent.com/o/r/main/LICENSE" then some "MIT"
        else if u = "https://raw.githubusercontent.com/o/r/main/COPYING" then some "GPL"
        else none)
      "https://github.com/o/r/blob/main/pom.xml" =
      .ok ("https://github.com/o/r/blob/main/LICENSE", "MIT") ∧
    get_license_from_pom
      (fun u => if u = "https://raw.githubusercontent.com/o/r/main/COPYING" then some "GPL"
        else none)
      "https://github.com/o/r/blob/main/pom.xml" =
      .ok ("https://github.com/o/r/blob/main/COPYING", "GPL") ∧
    get_license_from_pom (fun _ => none) "https://github.com/o/r/blob/main/pom.xml" =
      .error (.licenseUnresolvable "https://github.com/o/r/blob/main/pom.xml") ∧
    get_license_from_pom (fun _ => some "MIT") "https://github.com/o/r/blob/dev/pom.xml" =
      .error (.noBranchRoot "https://github.com/o/r/blob/dev/pom.xml") := by
  refine ⟨(C3_license_probe_order _ _ "https://github.com/o/r/blob/main/").1 (by decide)
      "MIT" (by decide),
    (C3_license_probe_order _ _ "https://github.com/o/r/blob/main/").2.1 (by decide)
      (by decide) "GPL" (by decide),
    (C3_license_probe_order _ _ "https://github.com/o/r/blob/main/").2.2.1 (by decide)
      (by decide) (by decide),
    (C3_license_probe_order (fun _ => some "MIT") "https://github.com/o/r/blob/dev/pom.xml"
      "").2.2.2.1 (by decide) (by decide)⟩

/-- Claim C6: for pom-like content the derived group is taken exclusively
from the groupId of the nested parent element and the artifact from the
top-level artifactId element; a missing parent element or a missing
subfield is the fatal malformed-descriptor outcome (an uncaught
AttributeError in the script), with no fallback to a top-level groupId —
the first three clauses hold for every tree, in particular trees carrying a
top-level groupId element. -/
theorem C6_pom_parent_only (net : Net) (parseXml : XmlOracle) (url content : String)
    (root : XmlElem)
    (hfetch : get_file_from_github net url = some content)
    (hparse : parseXml content = some root) :
    (findChild root (mvnTag "parent") = none →
      get_pom_artifact_name net parseXml url = .error (.malformedDescriptor url)) ∧
    (∀ parent, findChild root (mvnTag "parent") = some parent →
      findChild parent (mvnTag "groupId") = none →
      get_pom_artifact_name net parseXml url = .error (.malformedDescriptor url)) ∧
    (∀ parent g, findChild root (mvnTag "parent") = some parent →
      findChild parent (mvnTag "groupId") = some g →
      findChild root (mvnTag "artifactId") = none →
      get_pom_artifact_name net parseXml url = .error (.malformedDescriptor url)) ∧
    (∀ parent g a, findChild root (mvnTag "parent") = some parent →
      findChild parent (mvnTag "groupId") = some g →
      findChild root (mvnTag "artifactId") = some a →
      get_pom_artifact_name net parseXml url = .ok (pyStr g.text ++ ":" ++ pyStr a.text)) := by
  refine ⟨?_, ?_, ?_, ?_⟩
  · intro hp
    simp [get_pom_artifact_name, hfetch, hparse, hp]
  · intro parent hp hg
    simp [get_pom_artifact_name, hfetch, hparse, hp, hg]
  · intro parent g hp hg ha
    simp [get_pom_artifact_name, hfetch, hparse, hp, hg, ha]
  · intro parent g a hp hg ha
    simp [get_pom_artifact_name, hfetch, hparse, hp, hg, ha]

/-- Witness for C6: a tree whose root has a top-level groupId element but
no parent element still fails (no fallback), and a complete tree reads its
group from the parent element only. -/
theorem C6_pom_parent_only_witness :
    get_pom_artifact_name
      (fun u => if u = "https://raw.githubusercontent.com/o/r/main/pom.xml"
        then some "pomA" else none)
      (fun c => if c = "pomA" then
        some (.node (mvnTag "project") none
          [.node (mvnTag "groupId") (some "toplevelG") [],
           .node (mvnTag "artifactId") (some "a1") []])
        else none)
      "https://github.com/o/r/blob/main/pom.xml" =
      .error (.malformedDescriptor "https://github.com/o/r/blob/main/pom.xml") ∧
    get_pom_artifact_name
      (fun u => if u = "https://raw.githubusercontent.com/o/r/main/pom.xml"
        then some "pomB" else none)
      (fun c => if c = "pomB" then
        some (.node (mvnTag "project") none
          [.node (mvnTag "groupId") (some "toplevelG") [],
           .node (mvnTag "parent") none [.node (mvnTag "groupId") (some "parentG") []],
           .node (mvnTag "artifactId") (some "a1") []])
        else none)
      "https://github.com/o/r/blob/main/pom.xml" = .ok "parentG:a1" := by
  constructor
  · exact (C6_pom_parent_only _ _ "https://github.com/o/r/blob/main/pom.xml" "pomA"
      (.node (mvnTag "project") none
        [.node (mvnTag "groupId") (some "toplevelG") [],
         .node (mvnTag "artifactId") (some "a1") []])
      (by decide) (by simp)).1 rfl
  · exact (C6_pom_parent_only _ _ "https://github.com/o/r/blob/main/pom.xml" "pomB"
      (.node (mvnTag "project") none
        [.node (mvnTag "groupId") (some "toplevelG") [],
         .node (mvnTag "parent") none [.node (mvnTag "groupId") (some "parentG") []],
         .node (mvnTag "artifactId") (some "a1") []])
      (by decide) (by simp)).2.2.2
      (.node (mvnTag "parent") none [.node (mvnTag "groupId") (some "parentG") []])
      (.node (mvnTag "groupId") (some "parentG") [])
      (.node (mvnTag "artifactId") (some "a1") [])
      rfl rfl rfl

/-- Claim C1: with equal-length lists, once the derived coordinate list
exists (the descriptor loop succeeded) and every declared entry truncates,
any difference between the derived sequence and the truncated declared
sequence — element by element, in order — is the fatal coordinate-mismatch
outcome with exit code 1 and the notices file untouched.  The hypothesis is
plain list inequality, so a reordering of one list alone is detected. -/
theorem C1_strict_positional_check (net : Net) (parseXml : XmlOracle)
    (maven_artifacts pom_gradle_filelist ghList mavenShort : List String) (d : Dict)
    (hlen : maven_artifacts.length = pom_gradle_filelist.length)
    (hbuild : buildLoop net parseXml pom_gradle_filelist [] [] = .ok (ghList, d))
    (htrunc : maven_artifacts.mapM maven_short_name = some mavenShort)
    (hne : ghList ≠ mavenShort)
    (update : Bool) (oldNotices : String) :
    reconcile net parseXml maven_artifacts pom_gradle_filelist =
      .error (.coordinateMismatch ghList mavenShort) ∧
    mainRun net parseXml maven_artifacts pom_gradle_filelist update oldNotices =
      ⟨1, oldNotices, some (.coordinateMismatch ghList mavenShort)⟩ := by
  have h1 : reconcile net parseXml maven_artifacts pom_gradle_filelist =
      .error (.coordinateMismatch ghList mavenShort) := by
    unfold reconcile
    rw [if_neg (by simp [hlen])]
    rw [hbuild, htrunc]
    simp [hne]
  exact ⟨h1, by unfold mainRun; rw [h1]⟩

/-- Witness for C1: a pure reordering — the descriptors derive
g1:a1 then g2:a2, the declared list carries the same two coordinates in the
opposite order — is caught as a coordinate mismatch. -/
theorem C1_strict_positional_check_witness :
    mainRun
      (fun u =>
        if u = "https://raw.githubusercontent.com/o/r/main/a.gradle" then
          some "groupId = g1\nartifactId = a1\n"
        else if u = "https://raw.githubusercontent.com/o/r/main/b.gradle" then
          some "groupId = g2\nartifactId = a2\n"
        else none)
      (fun _ => none)
      ["g2:a2:1.0", "g1:a1:1.0"]
      ["https://github.com/o/r/blob/main/a.gradle", "https://github.com/o/r/blob/main/b.gradle"]
      false "old" =
      ⟨1, "old", some (.coordinateMismatch ["g1:a1", "g2:a2"] ["g2:a2", "g1:a1"])⟩ :=
  (C1_strict_positional_check
    (fun u =>
      if u = "https://raw.githubusercontent.com/o/r/main/a.gradle" then
        some "groupId = g1\nartifactId = a1\n"
      else if u = "https://raw.githubusercontent.com/o/r/main/b.gradle" then
        some "groupId = g2\nartifactId = a2\n"
      else none)
    (fun _ => none)
    ["g2:a2:1.0", "g1:a1:1.0"]
    ["https://github.com/o/r/blob/main/a.gradle", "https://github.com/o/r/blob/main/b.gradle"]
    ["g1:a1", "g2:a2"] ["g2:a2", "g1:a1"]
    [("g1:a1", "https://github.com/o/r/blob/main/a.gradle"),
     ("g2:a2", "https://github.com/o/r/blob/main/b.gradle")]
    (by decide) (by set_option maxRecDepth 100000 in decide)
    (by decide) (by decide) false "old").2

/-- Claim C5: for every gradle-like descriptor content, the derived group
is the stripped last whitespace-delimited token of the last line containing
the groupId token (last matching line wins), analogously for the artifact
with the artifactId token; with no matching line the field is the empty
string, and parsing still succeeds silently whenever the fetch
succeeded. -/
theorem C5_gradle_last_wins (content : String) :
    (gradle_scan content).1 =
      (((pySplitlines content).filter (fun l => pyContains l "groupId")).getLast?).elim ""
        get_grad_rval ∧
    (gradle_scan content).2 =
      (((pySplitlines content).filter (fun l => pyContains l "artifactId")).getLast?).elim ""
        get_grad_rval ∧
    (∀ (net : Net) (url : String), get_file_from_github net url = some content →
      get_gradle_artifact_name net url =
        .ok ((gradle_scan content).1 ++ ":" ++ (gradle_scan content).2)) := by
  refine ⟨?_, ?_, ?_⟩
  · rw [gradle_scan, gradleFold_fst, foldl_last_wins]
  · rw [gradle_scan, gradleFold_snd, foldl_last_wins]
  · intro net url hfetch
    simp [get_gradle_artifact_name, hfetch]

/-- Witness for C5: content with two groupId lines derives the value of the
second (last-write-wins), and content with no artifactId line silently
yields an empty artifact field while the run still succeeds. -/
theorem C5_gradle_last_wins_witness :
    gradle_scan "groupId = g1\ngroupId = g2\nartifactId = a1\n" = ("g2", "a1") ∧
    get_gradle_artifact_name
      (fun u => if u = "https://raw.githubusercontent.com/o/r/main/b.gradle" then
        some "groupId = g1\ngroupId = g2\n" else none)
      "https://github.com/o/r/blob/main/b.gradle" = .ok "g2:" := by
  refine ⟨by decide, ?_⟩
  have h := (C5_gradle_last_wins "groupId = g1\ngroupId = g2\n").2.2
    (fun u => if u = "https://raw.githubusercontent.com/o/r/main/b.gradle" then
      some "groupId = g1\ngroupId = g2\n" else none)
    "https://github.com/o/r/blob/main/b.gradle" (by decide)
  exact h.trans (by decide)

/-- Claim C8: for well-formed equal-length input lists — every descriptor
derives successfully, every declared entry truncates to its derived
counterpart, and (well-formedness of the keys, as the spec expects of
well-formed input) the derived coordinates are pairwise distinct —
reconciliation succeeds and returns an index whose keys are exactly the
derived coordinates, one entry per list element. -/
theorem C8_reconcile_success (net : Net) (parseXml : XmlOracle)
    (maven_artifacts pom_gradle_filelist ghList : List String) (d : Dict)
    (hlen : maven_artifacts.length = pom_gradle_filelist.length)
    (hbuild : buildLoop net parseXml pom_gradle_filelist [] [] = .ok (ghList, d))
    (hmatch : maven_artifacts.mapM maven_short_name = some ghList)
    (hnodup : ghList.Nodup) :
    reconcile net parseXml maven_artifacts pom_gradle_filelist = .ok (ghList, d) ∧
    d.map Prod.fst = ghList ∧
    d.length = pom_gradle_filelist.length := by
  have hrec : reconcile net parseXml maven_artifacts pom_gradle_filelist =
      .ok (ghList, d) := by
    unfold reconcile
    rw [if_neg (by simp [hlen]), hbuild, hmatch]
    simp
  obtain ⟨tmps, hlen2, hgh, hkeys⟩ :=
    buildLoop_spec net parseXml pom_gradle_filelist [] [] ghList d hbuild
  rw [List.nil_append] at hgh
  subst hgh
  have hkeys2 : d.map Prod.fst = ghList := by
    rw [hkeys]
    exact (foldl_seenStep_nodup ghList [] hnodup (by simp)).trans (by simp)
  refine ⟨hrec, hkeys2, ?_⟩
  calc d.length = (d.map Prod.fst).length := (List.length_map _ _).symm
    _ = ghList.length := by rw [hkeys2]
    _ = pom_gradle_filelist.length := hlen2

/-- Witness for C8: two gradle descriptors deriving two distinct
coordinates that match the declared list give a successful reconciliation
whose index holds exactly two entries, one per list element. -/
theorem C8_reconcile_success_witness :
    reconcile
      (fun u =>
        if u = "https://raw.githubusercontent.com/o/r/main/a.gradle" then
          some "groupId = g1\nartifactId = a1\n"
        else if u = "https://raw.githubusercontent.com/o/r/main/b.gradle" then
          some "groupId = g2\nartifactId = a2\n"
        else none)
      (fun _ => none)
      ["g1:a1:1.0", "g2:a2:2.0"]
      ["https://github.com/o/r/blob/main/a.gradle", "https://github.com/o/r/blob/main/b.gradle"] =
      .ok (["g1:a1", "g2:a2"],
        [("g1:a1", "https://github.com/o/r/blob/main/a.gradle"),
         ("g2:a2", "https://github.com/o/r/blob/main/b.gradle")]) ∧
    ([("g1:a1", "https://github.com/o/r/blob/main/a.gradle"),
      ("g2:a2", "https://github.com/o/r/blob/main/b.gradle")] : Dict).length =
      (["https://github.com/o/r/blob/main/a.gradle",
        "https://github.com/o/r/blob/main/b.gradle"] : List String).length := by
  have h := C8_reconcile_success
    (fun u =>
      if u = "https://raw.githubusercontent.com/o/r/main/a.gradle" then
        some "groupId = g1\nartifactId = a1\n"
      else if u = "https://raw.githubusercontent.com/o/r/main/b.gradle" then
        some "groupId = g2\nartifactId = a2\n"
      else none)
    (fun _ => none)
    ["g1:a1:1.0", "g2:a2:2.0"]
    ["https://github.com/o/r/blob/main/a.gradle", "https://github.com/o/r/blob/main/b.gradle"]
    ["g1:a1", "g2:a2"]
    [("g1:a1", "https://github.com/o/r/blob/main/a.gradle"),
     ("g2:a2", "https://github.com/o/r/blob/main/b.gradle")]
    (by decide) (by set_option maxRecDepth 100000 in decide) (by decide) (by decide)
  exact ⟨h.1, h.2.2⟩

/-- Claim C2: in every run reaching aggregation (every package of the
derived list resolves its license, the content being determined by the
resolved location), packages with the same resolved location are merged
into exactly one block; blocks follow the first-seen order of distinct
locations; each block header lists every merged package — each exactly
once when the derived coordinates are distinct — in first-seen order, in
the textual list form; and each block is the header line, a blank line,
the license content and the SPACER, all concatenated in order. -/
theorem C2_grouping (net : Net) (d : Dict) (locOf contOf : String → String)
    (ghList : List String)
    (h : ∀ p ∈ ghList, licenseFor net d p = .ok (locOf p, contOf (locOf p))) :
    aggregate net ghList d = .ok (
      (firstSeenKeys (ghList.map locOf)).foldl
        (fun acc k => acc ++ "License for package(s): "
          ++ pyStrList (ghList.filter (fun p => locOf p == k))
          ++ "\n\n" ++ contOf k ++ SPACER) "") ∧
    (firstSeenKeys (ghList.map locOf)).Nodup ∧
    (ghList.Nodup → ∀ k, (ghList.filter (fun p => locOf p == k)).Nodup) := by
  refine ⟨?_, ?_, ?_⟩
  · have h0 := licenseLoop_group net d locOf contOf ghList [] h
    rw [groupedPackages_nil, groupedContents_nil, List.nil_append] at h0
    simp only [aggregate, h0]
    rw [renderNotices_grouped]
  · exact nodup_foldl_seenStep _ [] List.nodup_nil
  · intro hnd k
    exact hnd.filter _

/-- Witness for C2: three packages, the first two hosted in one repository
and so resolving to one license location, the third to another; the run
aggregates exactly two blocks, the first header listing both merged
packages in first-seen order. -/
theorem C2_grouping_witness :
    aggregate
      (fun u => if u = "https://raw.githubusercontent.com/o/r/main/LICENSE" then some "MIT"
        else if u = "https://raw.githubusercontent.com/o/q/main/LICENSE" then some "APACHE"
        else none)
      ["g1:a1", "g2:a2", "g3:a3"]
      [("g1:a1", "https://github.com/o/r/blob/main/a.gradle"),
       ("g2:a2", "https://github.com/o/r/blob/main/b.gradle"),
       ("g3:a3", "https://github.com/o/q/blob/main/c.gradle")] =
      .ok ("License for package(s): " ++ pyStrList ["g1:a1", "g2:a2"] ++ "\n\n"
        ++ "MIT" ++ SPACER
        ++ ("License for package(s): " ++ pyStrList ["g3:a3"] ++ "\n\n"
        ++ "APACHE" ++ SPACER)) := by
  have h := C2_grouping
    (fun u => if u = "https://raw.githubusercontent.com/o/r/main/LICENSE" then some "MIT"
      else if u = "https://raw.githubusercontent.com/o/q/main/LICENSE" then some "APACHE"
      else none)
    [("g1:a1", "https://github.com/o/r/blob/main/a.gradle"),
     ("g2:a2", "https://github.com/o/r/blob/main/b.gradle"),
     ("g3:a3", "https://github.com/o/q/blob/main/c.gradle")]
    (fun p => if p = "g3:a3" then "https://github.com/o/q/blob/main/LICENSE"
      else "https://github.com/o/r/blob/main/LICENSE")
    (fun u => if u = "https://github.com/o/q/blob/main/LICENSE" then "APACHE" else "MIT")
    ["g1:a1", "g2:a2", "g3:a3"]
    (by set_option maxRecDepth 100000 in decide)
  exact h.1.trans (by set_option maxRecDepth 100000 in decide)

/-- Claim C10, counterexample: for a hosted URL of the claimed canonical
form whose rest segment contains a second occurrence of the marker, the
fetcher does not request the claimed raw URL — the rewrite keeps only what
lies between the first two occurrences, so a network holding exactly the
claimed raw URL is never asked for it. -/
theorem C10_counterexample :
    raw_file_url_of (pyReplace "https://github.com/o/r/blob/main/a/main/b.gradle"
        GITHUB_URL_BASE RAW_FILE_URL_BASE) =
      "https://raw.githubusercontent.com/o/r/main/a/" ∧
    raw_file_url_of (pyReplace "https://github.com/o/r/blob/main/a/main/b.gradle"
        GITHUB_URL_BASE RAW_FILE_URL_BASE) ≠
      "https://raw.githubusercontent.com/o/r/main/a/main/b.gradle" ∧
    get_file_from_github
      (fun u => if u = "https://raw.githubusercontent.com/o/r/main/a/main/b.gradle"
        then some "content" else none)
      "https://github.com/o/r/blob/main/a/main/b.gradle" = none := by
  refine ⟨by set_option maxRecDepth 100000 in decide,
    by set_option maxRecDepth 100000 in decide,
    by set_option maxRecDepth 100000 in decide⟩

/-- Claim C10 (amended): when the rewritten URL contains exactly one
occurrence of exactly one recognized branch marker, the rewrite deletes
exactly the five characters before that occurrence — the blob segment in
the canonical GitHub form — and the fetcher requests exactly the raw URL
built from the organisation, the repository, the marker and the rest. -/
theorem C10_amended_unique_marker (org repo rest marker : String)
    (hm : marker ∈ branch_roots)
    (h0 : hasOccur GITHUB_URL_BASE.data
      (org ++ "/" ++ repo ++ "/" ++ "blob/" ++ marker ++ rest).data = false)
    (hocc : ∀ br ∈ branch_roots,
      ∀ i ≤ ((RAW_FILE_URL_BASE ++ org ++ "/" ++ repo ++ "/" ++ "blob/").data
          ++ marker.data ++ rest.data).length,
      br.data.isPrefixOf
        (((RAW_FILE_URL_BASE ++ org ++ "/" ++ repo ++ "/" ++ "blob/").data
          ++ marker.data ++ rest.data).drop i) = true →
      br = marker ∧
        i = (RAW_FILE_URL_BASE ++ org ++ "/" ++ repo ++ "/" ++ "blob/").data.length) :
    raw_file_url_of (pyReplace
        (GITHUB_URL_BASE ++ (org ++ "/" ++ repo ++ "/" ++ "blob/" ++ marker ++ rest))
        GITHUB_URL_BASE RAW_FILE_URL_BASE) =
      RAW_FILE_URL_BASE ++ org ++ "/" ++ repo ++ "/" ++ marker ++ rest ∧
    ∀ net : Net,
      get_file_from_github net
          (GITHUB_URL_BASE ++ (org ++ "/" ++ repo ++ "/" ++ "blob/" ++ marker ++ rest)) =
        net (RAW_FILE_URL_BASE ++ org ++ "/" ++ repo ++ "/" ++ marker ++ rest) := by
  have hgh : GITHUB_URL_BASE.data ≠ [] := by decide
  have hrepl : pyReplace
      (GITHUB_URL_BASE ++ (org ++ "/" ++ repo ++ "/" ++ "blob/" ++ marker ++ rest))
      GITHUB_URL_BASE RAW_FILE_URL_BASE =
      RAW_FILE_URL_BASE ++ (org ++ "/" ++ repo ++ "/" ++ "blob/" ++ marker ++ rest) := by
    show String.mk (replaceL GITHUB_URL_BASE.data RAW_FILE_URL_BASE.data
      (GITHUB_URL_BASE.data
        ++ (org ++ "/" ++ repo ++ "/" ++ "blob/" ++ marker ++ rest).data)) = _
    rw [replaceL_head _ _ _ hgh h0]
    rfl
  have hdata : (RAW_FILE_URL_BASE
      ++ (org ++ "/" ++ repo ++ "/" ++ "blob/" ++ marker ++ rest)).data =
      (RAW_FILE_URL_BASE ++ org ++ "/" ++ repo ++ "/" ++ "blob/").data
        ++ marker.data ++ rest.data := by
    simp only [String.data_append, List.append_assoc]
  have hstr : RAW_FILE_URL_BASE ++ (org ++ "/" ++ repo ++ "/" ++ "blob/" ++ marker ++ rest) =
      String.mk ((RAW_FILE_URL_BASE ++ org ++ "/" ++ repo ++ "/" ++ "blob/").data
        ++ marker.data ++ rest.data) := congrArg String.mk hdata
  have hfinal : String.mk (dropRightL 5
        (RAW_FILE_URL_BASE ++ org ++ "/" ++ repo ++ "/" ++ "blob/").data
      ++ marker.data ++ rest.data) =
      RAW_FILE_URL_BASE ++ org ++ "/" ++ repo ++ "/" ++ marker ++ rest := by
    have hA : (RAW_FILE_URL_BASE ++ org ++ "/" ++ repo ++ "/" ++ "blob/").data =
        (RAW_FILE_URL_BASE ++ org ++ "/" ++ repo ++ "/").data
          ++ ("blob/" : String).data := by
      simp only [String.data_append, List.append_assoc]
    rw [hA]
    have h5 := dropRightL_append (RAW_FILE_URL_BASE ++ org ++ "/" ++ repo ++ "/").data
      ("blob/" : String).data
    rw [show (("blob/" : String).data.length) = 5 from by decide] at h5
    rw [h5]
    have hfd : (RAW_FILE_URL_BASE ++ org ++ "/" ++ repo ++ "/" ++ marker ++ rest).data =
        (RAW_FILE_URL_BASE ++ org ++ "/" ++ repo ++ "/").data
          ++ marker.data ++ rest.data := by
      simp only [String.data_append, List.append_assoc]
    exact (congrArg String.mk hfd).symm
  have hmain : raw_file_url_of (pyReplace
      (GITHUB_URL_BASE ++ (org ++ "/" ++ repo ++ "/" ++ "blob/" ++ marker ++ rest))
      GITHUB_URL_BASE RAW_FILE_URL_BASE) =
      RAW_FILE_URL_BASE ++ org ++ "/" ++ repo ++ "/" ++ marker ++ rest := by
    rw [hrepl, hstr, raw_url_rewrite marker hm _ _ hocc, hfinal]
  refine ⟨hmain, ?_⟩
  intro net
  have hne : RAW_FILE_URL_BASE ++ org ++ "/" ++ repo ++ "/" ++ marker ++ rest ≠ "" := by
    intro hc
    have hd := congrArg String.data hc
    simp only [String.data_append] at hd
    have hlen := congrArg List.length hd
    simp only [List.length_append] at hlen
    have hRAW : RAW_FILE_URL_BASE.data.length = 34 := by decide
    have hnil : (("" : String).data).length = 0 := by decide
    rw [hnil] at hlen
    omega
  simp only [get_file_from_github, hmain, if_neg hne]

/-- Witness for the amended C10: a URL with a single marker occurrence is
rewritten to exactly the claimed raw URL, and the fetcher receives the
body the network holds at it. -/
theorem C10_amended_unique_marker_witness :
    get_file_from_github
      (fun u => if u = RAW_FILE_URL_BASE ++ "o" ++ "/" ++ "r" ++ "/" ++ "main/" ++ "p.gradle"
        then some "content" else none)
      (GITHUB_URL_BASE ++ ("o" ++ "/" ++ "r" ++ "/" ++ "blob/" ++ "main/" ++ "p.gradle")) =
      some "content" := by
  have h := (C10_amended_unique_marker "o" "r" "p.gradle" "main/" (by decide) (by decide)
    (by set_option maxRecDepth 1000000 in decide)).2
    (fun u => if u = RAW_FILE_URL_BASE ++ "o" ++ "/" ++ "r" ++ "/" ++ "main/" ++ "p.gradle"
      then some "content" else none)
  rw [h, if_pos rfl]

end LicenseCheck
